import Mathlib

/-!
Shallow embedding of the availability-computation core of the Meetings
repository (`src/book/calculate_availability.py`, `src/availabilities/
availabilities.py`, `src/book/book.py`).

Modelling conventions:
* Naive Python `datetime` values are modelled as `Int` microseconds since a
  fixed reference instant that falls on a Monday at 00:00:00 (Python's
  proleptic-Gregorian origin `0001-01-01` is a Monday, so `weekday t =
  (t / usPerDay) % 7` reproduces `datetime.weekday()`: Monday = 0 …
  Sunday = 6).  `timedelta` arithmetic on naive datetimes is exact uniform
  time arithmetic, so addition/subtraction of `days * usPerDay` is faithful.
* Python `time` (time-of-day) values are `Int` microseconds since midnight;
  comparison of `time` objects is lexicographic on (h, m, s, µs), which
  coincides with comparison of microseconds-of-day.
* ISO strings for events and working-hour ranges arrive already parsed:
  a `TimeRange` holds the parsed `time.fromisoformat` values, an `Event`
  the parsed `datetime.fromisoformat` values.
-/

namespace Meetings

/-- Microseconds per day (`timedelta(days=1)`). -/
def usPerDay : Int := 86400000000

/-- Microseconds per hour. -/
def usPerHour : Int := 3600000000

/-- Python `datetime.weekday()`: Monday = 0 … Sunday = 6 (reference instant
is a Monday midnight). -/
def weekday (t : Int) : Int := (t / usPerDay) % 7

/-- Python `dt.replace(hour=0, minute=0, second=0, microsecond=0)`. -/
def midnightOf (t : Int) : Int := (t / usPerDay) * usPerDay

/-- Python `dt.replace(hour=23, minute=59, second=59, microsecond=999999)`. -/
def endOfDay (t : Int) : Int := midnightOf t + (usPerDay - 1)

/-- Python `dt.time()`: the time-of-day of a naive datetime, as µs since
midnight. -/
def timeOfDay (t : Int) : Int := t % usPerDay

/-- A working-hours range `{"start": …, "end": …}` with the two
`time.fromisoformat` values already parsed (µs since midnight). -/
structure TimeRange where
  start : Int
  endT : Int
deriving DecidableEq, Repr

/-- A busy interval `{"start": …, "end": …}` with the two
`datetime.fromisoformat` values already parsed (absolute µs). -/
structure Event where
  start : Int
  endT : Int
deriving DecidableEq, Repr

/-- `get_start_and_end_times` (calculate_availability.py:48-75) for an
injected "now".  `days_since_sunday = now.weekday() + 1`; the start time is
`now - days_since_sunday` days floored to midnight; the end time is
`now + 6 weeks + (5 - now.weekday())` days moved to 23:59:59.999999. -/
def get_start_and_end_times (now : Int) : Int × Int :=
  let days_since_sunday : Int := weekday now + 1
  let start_time := midnightOf (now - days_since_sunday * usPerDay)
  let end_time := endOfDay (now + 42 * usPerDay + (5 - weekday now) * usPerDay)
  (start_time, end_time)

/-- The per-range test inside the `for` loop of `within_working_hours`
(calculate_availability.py:96-104):
`time_range_start <= slot_start.time() < time_range_end and
 time_range_start <= slot_end.time() <= time_range_end`. -/
def rangeAdmits (r : TimeRange) (s t : Int) : Bool :=
  decide (r.start ≤ timeOfDay s) && decide (timeOfDay s < r.endT) &&
  decide (r.start ≤ timeOfDay t) && decide (timeOfDay t ≤ r.endT)

/-- `within_working_hours` (calculate_availability.py:78-110): true iff some
range of the list admits the slot. -/
def within_working_hours (wh : List TimeRange) (s t : Int) : Bool :=
  wh.any (fun r => rangeAdmits r s t)

/-- The per-event test inside the `for` loop of `overlapping_with_event`
(calculate_availability.py:129-138): the three-clause disjunction. -/
def eventOverlapCond (e : Event) (s t : Int) : Bool :=
  (decide (e.start ≤ s) && decide (s < e.endT)) ||
  (decide (e.start < t) && decide (t ≤ e.endT)) ||
  (decide (s < e.start) && decide (e.endT < t))

/-- `overlapping_with_event` (calculate_availability.py:113-146): true iff
some event of the list satisfies the three-clause disjunction. -/
def overlapping_with_event (events : List Event) (s t : Int) : Bool :=
  events.any (fun e => eventOverlapCond e s t)

/-- The `while time_slot_end <= end_time` loop of `get_availabilities`
(calculate_availability.py:174-202), with an explicit fuel: `none` means the
fuel ran out with the guard still true.  One unfolding is one evaluation of
the guard; on a guarded iteration the cursor advances by `g` unless
`first_loop` is still set, the day's working hours are looked up at index
`time_slot_start.weekday()`, and the slot start is appended when it is
within working hours and does not overlap an event.  The output is the list
of recorded slot starts, in emission order (the Python code additionally
groups them into a dict keyed by `strftime("%Y-%m-%d")`, a function of the
slot start only). -/
def availLoop (g : Int) (avail : List (List TimeRange)) (events : List Event)
    (endT : Int) : Nat → Int → Int → Bool → List Int → Option (List Int)
  | 0, _, t, _, acc => if t ≤ endT then none else some acc
  | fuel + 1, s, t, first, acc =>
    if t ≤ endT then
      let s' := if first then s else s + g
      let t' := if first then t else t + g
      let wh := avail.getD (weekday s').toNat []
      let acc' := if within_working_hours wh s' t' &&
                     !overlapping_with_event events s' t'
                  then acc ++ [s'] else acc
      availLoop g avail events endT fuel s' t' false acc'
    else some acc

/-- The slot enumeration of `get_availabilities` for a given granularity,
horizon and fuel: the loop starts at `time_slot_start = startT`,
`time_slot_end = startT + g`, `first_loop = True` with an empty result. -/
def enumerate_slots (g : Int) (avail : List (List TimeRange))
    (events : List Event) (startT endT : Int) (fuel : Nat) :
    Option (List Int) :=
  availLoop g avail events endT fuel startT (startT + g) true []

/-- `duration_seconds = 15 * 60` (calculate_availability.py:172), as µs. -/
def duration_us : Int := 15 * 60 * 1000000

/-- `get_availabilities` (calculate_availability.py:149-210) after the
availability template and the events have been fetched: horizon from
`get_start_and_end_times`, granularity 15 minutes, fuel large enough for the
whole horizon. -/
def get_availabilities (avail : List (List TimeRange)) (events : List Event)
    (now : Int) : Option (List Int) :=
  let p := get_start_and_end_times now
  enumerate_slots duration_us avail events p.1 p.2
    ((p.2 - p.1).toNat / duration_us.toNat + 2)

/-- `default_availability` (availabilities.py:80-103): 09:00–17:00 at the
indices the code comments call weekdays, empty at indices 0 and 6 which the
code comments call "Sunday or Saturday". -/
def default_availability : List (List TimeRange) :=
  let start := 9 * usPerHour
  let endT := 17 * usPerHour
  let weekday_slot : List TimeRange := [⟨start, endT⟩]
  let weekend_slot : List TimeRange := []
  (List.range 7).map (fun day =>
    if day = 0 || day = 6 then weekend_slot else weekday_slot)

/-- Error kinds visible in the book/availability call chain:
`NotFoundError` and `InternalServerError` from aws_lambda_powertools, and a
plain Python `Exception`. -/
inductive ApiError where
  | notFound
  | internalServerError
  | genericException
deriving DecidableEq, Repr

/-- `get_availability` (calculate_availability.py:17-45).  The DynamoDB
response is modelled as `none` (no `"Item"` key), `some none` (an item
without a `"data"` attribute) or `some (some d)`.  When the item or its data
is absent the code raises a plain `Exception` (caught, logged and re-raised
unchanged). -/
def get_availability (item : Option (Option (List (List TimeRange)))) :
    Except ApiError (List (List TimeRange)) :=
  match item with
  | some (some d) => Except.ok d
  | _ => Except.error ApiError.genericException

/-- The error surfacing of `get_availabilities_for_url` (book.py:141-167):
`except NotFoundError: raise e`, any other exception becomes
`InternalServerError("Internal service error")`. -/
def surface_error (e : ApiError) : ApiError :=
  match e with
  | ApiError.notFound => ApiError.notFound
  | _ => ApiError.internalServerError

/-- `get_availabilities_for_url` (book.py:141-167) restricted to the
availability-fetch path: the availability lookup result is injected, errors
from `get_availability` propagate through `get_availabilities`
(calculate_availability.py re-raises them unchanged) and are then surfaced
per book.py's `except` clauses. -/
def get_availabilities_for_url
    (item : Option (Option (List (List TimeRange))))
    (events : List Event) (now : Int) : Except ApiError (List Int) :=
  match get_availability item with
  | Except.error e => Except.error (surface_error e)
  | Except.ok avail =>
    match get_availabilities avail events now with
    | some res => Except.ok res
    | none => Except.error ApiError.internalServerError

/-- Claim C1: with every busy interval well-formed (`start < end`) and the
slot non-degenerate (`slot_start < slot_end`), the three-clause disjunction
of `overlapping_with_event` is equivalent to the half-open overlap formula
`slot_start < busy.end AND slot_end > busy.start`; boundary-touching is not
overlap. -/
theorem overlapping_iff_halfopen (events : List Event) (s t : Int)
    (hev : ∀ e ∈ events, e.start < e.endT) (hst : s < t) :
    overlapping_with_event events s t = true ↔
      ∃ e ∈ events, s < e.endT ∧ e.start < t := by
  simp only [overlapping_with_event, List.any_eq_true, eventOverlapCond,
    Bool.or_eq_true, Bool.and_eq_true, decide_eq_true_eq]
  constructor
  · rintro ⟨e, he, h⟩
    exact ⟨e, he, by have := hev e he; omega⟩
  · rintro ⟨e, he, h⟩
    exact ⟨e, he, by have := hev e he; omega⟩

/-- Witness for C1: a boundary-touching slot `[0,10)` against the busy
interval `[10,20)` — the equivalence instantiated at a concrete input
(where neither side holds, so the detector reports no overlap). -/
theorem overlapping_iff_halfopen_witness :
    overlapping_with_event [⟨10, 20⟩] 0 10 = false ∧
      (overlapping_with_event [⟨10, 20⟩] 0 10 = true ↔
        ∃ e ∈ [(⟨10, 20⟩ : Event)], (0 : Int) < e.endT ∧ e.start < 10) :=
  ⟨by decide, overlapping_iff_halfopen [⟨10, 20⟩] 0 10 (by decide) (by decide)⟩

/-- Counterexample to C2: the slot 23:50 of day 0 → 00:05 of day 1
straddles midnight (start and end fall on different days and midnight is in
the slot's interior), yet `within_working_hours` accepts it against the
single range 00:00–23:55, because only naive time-of-day values are
compared.  This refutes "a slot that straddles midnight … is rejected". -/
theorem within_straddling_midnight_accepted :
    within_working_hours [⟨0, 86100000000⟩] 85800000000 86700000000 = true ∧
    (85800000000 : Int) / usPerDay = 0 ∧
    (86700000000 : Int) / usPerDay = 1 ∧
    (86700000000 : Int) % usPerDay ≠ 0 := by
  decide

/-- Claim C2 (amended): `within_working_hours` returns true iff some range
`r` of the list satisfies `r.start ≤ slot_start.time() < r.end` and
`r.start ≤ slot_end.time() ≤ r.end`; in particular the empty range list
admits no slot.  (The comparisons are on naive time-of-day values, so a
slot that straddles midnight can still be accepted by a range whose start
is early enough — see the counterexample.) -/
theorem within_working_hours_iff (wh : List TimeRange) (s t : Int) :
    (within_working_hours wh s t = true ↔
      ∃ r ∈ wh, r.start ≤ timeOfDay s ∧ timeOfDay s < r.endT ∧
        r.start ≤ timeOfDay t ∧ timeOfDay t ≤ r.endT) ∧
    within_working_hours [] s t = false := by
  refine ⟨?_, rfl⟩
  simp [within_working_hours, rangeAdmits, List.any_eq_true,
    Bool.and_eq_true, decide_eq_true_eq, and_assoc]

/-- A range with `end ≤ start` fails the per-range test on every slot. -/
theorem rangeAdmits_eq_false_of_illformed (r : TimeRange) (s t : Int)
    (h : r.endT ≤ r.start) : rangeAdmits r s t = false := by
  cases hb : rangeAdmits r s t with
  | false => rfl
  | true =>
    exfalso
    simp only [rangeAdmits, Bool.and_eq_true, decide_eq_true_eq] at hb
    omega

/-- Unfolding lemma: the matcher on a cons list checks the head range and
then the tail. -/
theorem within_working_hours_cons (q : TimeRange) (rest : List TimeRange)
    (s t : Int) :
    within_working_hours (q :: rest) s t =
      (rangeAdmits q s t || within_working_hours rest s t) := by
  simp [within_working_hours]

/-- Claim C10: an ill-formed range (`start ≥ end`) never admits any slot
and raises no error; `within_working_hours` computes the same value as on
the sublist of well-formed ranges. -/
theorem illformed_ranges_ignored (r : TimeRange) (wh : List TimeRange)
    (s t : Int) :
    (r.endT ≤ r.start → rangeAdmits r s t = false) ∧
    within_working_hours wh s t =
      within_working_hours
        (wh.filter (fun q => decide (q.start < q.endT))) s t := by
  refine ⟨rangeAdmits_eq_false_of_illformed r s t, ?_⟩
  induction wh with
  | nil => rfl
  | cons q rest ih =>
    by_cases hq : q.start < q.endT
    · have hf : (q :: rest).filter (fun p => decide (p.start < p.endT)) =
          q :: rest.filter (fun p => decide (p.start < p.endT)) := by
        simp [List.filter_cons, hq]
      rw [hf, within_working_hours_cons, within_working_hours_cons, ih]
    · have hf : (q :: rest).filter (fun p => decide (p.start < p.endT)) =
          rest.filter (fun p => decide (p.start < p.endT)) := by
        simp [List.filter_cons, hq]
      have hqf : rangeAdmits q s t = false :=
        rangeAdmits_eq_false_of_illformed q s t (by omega)
      rw [hf, within_working_hours_cons, hqf, Bool.false_or, ih]

/-- Witness for C10: the ill-formed range 600–600 admits nothing, and
filtering it away does not change the matcher's verdict on a concrete
slot. -/
theorem illformed_ranges_ignored_witness :
    rangeAdmits ⟨600, 600⟩ 100 200 = false ∧
    within_working_hours [⟨600, 600⟩, ⟨0, 1000⟩] 100 200 =
      within_working_hours
        (([⟨600, 600⟩, ⟨0, 1000⟩] : List TimeRange).filter
          (fun q => decide (q.start < q.endT))) 100 200 := by
  have h := illformed_ranges_ignored ⟨600, 600⟩ [⟨600, 600⟩, ⟨0, 1000⟩] 100 200
  exact ⟨h.1 (by decide), h.2⟩

/-- Counterexample to C5: `now = 6 * usPerDay` is a Sunday at exactly
00:00:00, so "the most recent Sunday at 00:00:00 relative to now" is that
day itself, but `get_start_and_end_times` returns a different (earlier)
instant: `days_since_sunday = weekday + 1 = 7` pushes the start a full week
back. -/
theorem horizon_start_sunday_counterexample :
    weekday (6 * usPerDay) = 6 ∧
    timeOfDay (6 * usPerDay) = 0 ∧
    (get_start_and_end_times (6 * usPerDay)).1 ≠ midnightOf (6 * usPerDay) ∧
    (get_start_and_end_times (6 * usPerDay)).1 =
      midnightOf (6 * usPerDay) - 7 * usPerDay := by
  decide

/-- Claim C5 (amended): `horizon_start` is a Sunday at midnight and is the
most recent Sunday-at-midnight *strictly before the current day*: it
precedes `now`'s own midnight by at most 7 days; when `now` itself falls on
a Sunday, `horizon_start` is the Sunday one week earlier, not the same
day. -/
theorem horizon_start_prev_sunday (now : Int) :
    ((get_start_and_end_times now).1 % usPerDay = 0 ∧
     weekday (get_start_and_end_times now).1 = 6 ∧
     (get_start_and_end_times now).1 < midnightOf now ∧
     midnightOf now - (get_start_and_end_times now).1 ≤ 7 * usPerDay) ∧
    (weekday now = 6 →
      (get_start_and_end_times now).1 = midnightOf now - 7 * usPerDay) := by
  simp only [get_start_and_end_times, weekday, midnightOf, endOfDay,
    timeOfDay, usPerDay]
  omega

/-- Witness for C5 (amended) at the Sunday-midnight input `6 * usPerDay`. -/
theorem horizon_start_prev_sunday_witness :
    (get_start_and_end_times (6 * usPerDay)).1 =
      midnightOf (6 * usPerDay) - 7 * usPerDay :=
  (horizon_start_prev_sunday (6 * usPerDay)).2 (by decide)

/-- Claim C6: for every "now", `horizon_start` is a Sunday (weekday 6) at
exactly 00:00:00, `horizon_end` is a Saturday (weekday 5) at exactly
23:59:59.999999 (the last microsecond of its day), and
`horizon_start ≤ now ≤ horizon_end`. -/
theorem window_correctness (now : Int) :
    (get_start_and_end_times now).1 % usPerDay = 0 ∧
    weekday (get_start_and_end_times now).1 = 6 ∧
    (get_start_and_end_times now).2 % usPerDay = usPerDay - 1 ∧
    weekday (get_start_and_end_times now).2 = 5 ∧
    (get_start_and_end_times now).1 ≤ now ∧
    now ≤ (get_start_and_end_times now).2 := by
  simp only [get_start_and_end_times, weekday, midnightOf, endOfDay,
    timeOfDay, usPerDay]
  omega

/-- Claim C7: evaluating the enumerator on `default_availability` (whose
comments call indices 0 and 6 "Sunday or Saturday") over a horizon inside a
Saturday (weekday 5) does emit slots — the template's index convention
(0 = Sunday) does not match the horizon walk's `.weekday()` convention
(0 = Monday), so the documented "no availability on weekends" is violated:
Saturday 09:00 slots are emitted. -/
theorem default_template_emits_saturday :
    enumerate_slots 900000000 default_availability []
        (5 * usPerDay + 9 * usPerHour)
        (5 * usPerDay + 9 * usPerHour + 1800000000) 6 =
      some [464400000000, 465300000000, 466200000000] ∧
    weekday 464400000000 = 5 ∧
    (464400000000 : Int) = 5 * usPerDay + 9 * usPerHour := by
  decide

/-- Claim C8: when the availability record is absent (no item, or an item
without a `data` attribute), `get_availability` raises a plain `Exception`
(its own docstring promises `NotFoundError`), and `get_availabilities_for_url`
surfaces it as `InternalServerError`, not as a NotFound error. -/
theorem absent_availability_internal_error (events : List Event) (now : Int) :
    get_availabilities_for_url none events now =
      Except.error ApiError.internalServerError ∧
    get_availabilities_for_url (some none) events now =
      Except.error ApiError.internalServerError ∧
    ApiError.internalServerError ≠ ApiError.notFound :=
  ⟨rfl, rfl, by decide⟩

/-- Loop unfolding: whatever the fuel, when the guard `t ≤ endT` fails the
loop stops and returns the accumulator. -/
theorem availLoop_exit (g : Int) (avail : List (List TimeRange))
    (events : List Event) (endT : Int) (fuel : Nat) (s t : Int) (first : Bool)
    (acc : List Int) (h : ¬ t ≤ endT) :
    availLoop g avail events endT fuel s t first acc = some acc := by
  cases fuel with
  | zero => rw [availLoop, if_neg h]
  | succ n => rw [availLoop, if_neg h]

/-- Loop unfolding: a guarded first iteration keeps the cursor, clears the
flag and processes the slot `(s, t)`. -/
theorem availLoop_step_first (g : Int) (avail : List (List TimeRange))
    (events : List Event) (endT : Int) (n : Nat) (s t : Int)
    (acc : List Int) (h : t ≤ endT) :
    availLoop g avail events endT (n + 1) s t true acc =
      availLoop g avail events endT n s t false
        (if within_working_hours (avail.getD (weekday s).toNat []) s t &&
            !overlapping_with_event events s t
         then acc ++ [s] else acc) := by
  rw [availLoop, if_pos h]
  rfl

/-- Loop unfolding: a guarded later iteration advances the cursor by `g`
and processes the slot `(s + g, t + g)`. -/
theorem availLoop_step_next (g : Int) (avail : List (List TimeRange))
    (events : List Event) (endT : Int) (n : Nat) (s t : Int)
    (acc : List Int) (h : t ≤ endT) :
    availLoop g avail events endT (n + 1) s t false acc =
      availLoop g avail events endT n (s + g) (t + g) false
        (if within_working_hours
              (avail.getD (weekday (s + g)).toNat []) (s + g) (t + g) &&
            !overlapping_with_event events (s + g) (t + g)
         then acc ++ [s + g] else acc) := by
  rw [availLoop, if_pos h]
  rfl

/-- Loop invariant: when the cursor pair satisfies `t = s + g`, every
element of a successful run's output is either inherited from the
accumulator or is a slot start that passed both predicates for the slot
`(x, x + g)`. -/
theorem availLoop_mem_sound (g : Int) (avail : List (List TimeRange))
    (events : List Event) (endT : Int) :
    ∀ (fuel : Nat) (s t : Int) (first : Bool) (acc res : List Int),
      t = s + g →
      availLoop g avail events endT fuel s t first acc = some res →
      ∀ x ∈ res, x ∈ acc ∨
        (within_working_hours (avail.getD (weekday x).toNat [])
            x (x + g) = true ∧
          overlapping_with_event events x (x + g) = false) := by
  intro fuel
  induction fuel with
  | zero =>
    intro s t first acc res ht h x hx
    by_cases hguard : t ≤ endT
    · rw [availLoop, if_pos hguard] at h
      exact Option.noConfusion h
    · rw [availLoop_exit g avail events endT 0 s t first acc hguard] at h
      cases h
      exact Or.inl hx
  | succ n ih =>
    intro s t first acc res ht h x hx
    subst ht
    by_cases hguard : s + g ≤ endT
    · cases first with
      | true =>
        rw [availLoop_step_first g avail events endT n s (s + g) acc hguard]
          at h
        rcases ih s (s + g) false _ res rfl h x hx with hacc | hp
        · by_cases hc :
            (within_working_hours (avail.getD (weekday s).toNat []) s (s + g)
                &&
              !overlapping_with_event events s (s + g)) = true
          · rw [if_pos hc] at hacc
            rcases List.mem_append.mp hacc with h1 | h2
            · exact Or.inl h1
            · have hxs : x = s := by simpa using h2
              subst hxs
              rw [Bool.and_eq_true, Bool.not_eq_true'] at hc
              exact Or.inr ⟨hc.1, hc.2⟩
          · rw [if_neg hc] at hacc
            exact Or.inl hacc
        · exact Or.inr hp
      | false =>
        rw [availLoop_step_next g avail events endT n s (s + g) acc hguard]
          at h
        rcases ih (s + g) (s + g + g) false _ res rfl h x hx with hacc | hp
        · by_cases hc :
            (within_working_hours (avail.getD (weekday (s + g)).toNat [])
                (s + g) (s + g + g) &&
              !overlapping_with_event events (s + g) (s + g + g)) = true
          · rw [if_pos hc] at hacc
            rcases List.mem_append.mp hacc with h1 | h2
            · exact Or.inl h1
            · have hxs : x = s + g := by simpa using h2
              subst hxs
              rw [Bool.and_eq_true, Bool.not_eq_true'] at hc
              exact Or.inr ⟨hc.1, hc.2⟩
          · rw [if_neg hc] at hacc
            exact Or.inl hacc
        · exact Or.inr hp
    · rw [availLoop_exit g avail events endT (n + 1) s (s + g) first acc
        hguard] at h
      cases h
      exact Or.inl hx

/-- Claim C3: every slot recorded by the enumeration satisfies both
invariants — the conflict detector reports no overlap for it, and the
working-hours matcher accepts it against the weekday's ranges
(`template[slot_start.weekday()]`). -/
theorem emitted_slots_valid (g : Int) (avail : List (List TimeRange))
    (events : List Event) (startT endT : Int) (fuel : Nat) (res : List Int)
    (h : enumerate_slots g avail events startT endT fuel = some res) :
    ∀ x ∈ res,
      overlapping_with_event events x (x + g) = false ∧
      within_working_hours (avail.getD (weekday x).toNat [])
        x (x + g) = true := by
  intro x hx
  rcases availLoop_mem_sound g avail events endT fuel startT (startT + g)
      true [] res rfl h x hx with h1 | h2
  · exact absurd h1 (List.not_mem_nil x)
  · exact ⟨h2.2, h2.1⟩

/-- Witness for C3 on a concrete run: granularity 1, horizon `[0, 2]`, a
single all-day range on every weekday — the first emitted slot start `0`
satisfies both invariants. -/
theorem emitted_slots_valid_witness :
    overlapping_with_event [] 0 (0 + 1) = false ∧
    within_working_hours
      ((List.replicate 7 [(⟨0, 86400000000⟩ : TimeRange)]).getD
        (weekday 0).toNat []) 0 (0 + 1) = true := by
  have h := emitted_slots_valid 1
    (List.replicate 7 [(⟨0, 86400000000⟩ : TimeRange)]) [] 0 2 6 [0, 1, 2]
    (by decide)
  exact h 0 (by decide)

/-- Counterexample to C4: with granularity 10 and horizon end 15, the run
records the slot start 10 whose slot `(10, 20)` extends past the horizon
end (`10 + 10 ≤ 15` is false): the guard is evaluated on the previous
slot's end before the cursor advances. -/
theorem slot_past_horizon_emitted :
    enumerate_slots 10 (List.replicate 7 [(⟨0, 1000⟩ : TimeRange)]) [] 0 15 5
        = some [0, 10] ∧
      ¬((10 : Int) + 10 ≤ 15) := by
  decide

/-- Loop invariant for the horizon bound: with a nonnegative granularity
and `t = s + g`, every recorded slot start is at most `endT`. -/
theorem availLoop_mem_le (g : Int) (avail : List (List TimeRange))
    (events : List Event) (endT : Int) (hg : 0 ≤ g) :
    ∀ (fuel : Nat) (s t : Int) (first : Bool) (acc res : List Int),
      t = s + g →
      availLoop g avail events endT fuel s t first acc = some res →
      ∀ x ∈ res, x ∈ acc ∨ x ≤ endT := by
  intro fuel
  induction fuel with
  | zero =>
    intro s t first acc res ht h x hx
    by_cases hguard : t ≤ endT
    · rw [availLoop, if_pos hguard] at h
      exact Option.noConfusion h
    · rw [availLoop_exit g avail events endT 0 s t first acc hguard] at h
      cases h
      exact Or.inl hx
  | succ n ih =>
    intro s t first acc res ht h x hx
    subst ht
    by_cases hguard : s + g ≤ endT
    · cases first with
      | true =>
        rw [availLoop_step_first g avail events endT n s (s + g) acc hguard]
          at h
        rcases ih s (s + g) false _ res rfl h x hx with hacc | hp
        · by_cases hc :
            (within_working_hours (avail.getD (weekday s).toNat []) s (s + g)
                &&
              !overlapping_with_event events s (s + g)) = true
          · rw [if_pos hc] at hacc
            rcases List.mem_append.mp hacc with h1 | h2
            · exact Or.inl h1
            · have hxs : x = s := by simpa using h2
              subst hxs
              exact Or.inr (by omega)
          · rw [if_neg hc] at hacc
            exact Or.inl hacc
        · exact Or.inr hp
      | false =>
        rw [availLoop_step_next g avail events endT n s (s + g) acc hguard]
          at h
        rcases ih (s + g) (s + g + g) false _ res rfl h x hx with hacc | hp
        · by_cases hc :
            (within_working_hours (avail.getD (weekday (s + g)).toNat [])
                (s + g) (s + g + g) &&
              !overlapping_with_event events (s + g) (s + g + g)) = true
          · rw [if_pos hc] at hacc
            rcases List.mem_append.mp hacc with h1 | h2
            · exact Or.inl h1
            · have hxs : x = s + g := by simpa using h2
              subst hxs
              exact Or.inr hguard
          · rw [if_neg hc] at hacc
            exact Or.inl hacc
        · exact Or.inr hp
    · rw [availLoop_exit g avail events endT (n + 1) s (s + g) first acc
        hguard] at h
      cases h
      exact Or.inl hx

/-- Claim C4 (amended): for a nonnegative granularity, every recorded slot
start satisfies `slot_start ≤ horizon_end`; because the loop guard is
checked on the previous slot's end before the cursor advances, the final
recorded slot may extend up to one granularity past the horizon end, so
`slot_start + granularity ≤ horizon_end` does not hold in general (see the
counterexample). -/
theorem emitted_slots_start_le_horizon (g : Int)
    (avail : List (List TimeRange)) (events : List Event)
    (startT endT : Int) (fuel : Nat) (res : List Int) (hg : 0 ≤ g)
    (h : enumerate_slots g avail events startT endT fuel = some res) :
    ∀ x ∈ res, x ≤ endT := by
  intro x hx
  rcases availLoop_mem_le g avail events endT hg fuel startT (startT + g)
      true [] res rfl h x hx with h1 | h2
  · exact absurd h1 (List.not_mem_nil x)
  · exact h2

/-- Witness for C4 (amended) on the counterexample run: the out-of-horizon
slot start 10 still satisfies `10 ≤ 15`. -/
theorem emitted_slots_start_le_horizon_witness : (10 : Int) ≤ 15 := by
  have h := emitted_slots_start_le_horizon 10
    (List.replicate 7 [(⟨0, 1000⟩ : TimeRange)]) [] 0 15 5 [0, 10]
    (by decide) (by decide)
  exact h 10 (by decide)

/-- Termination auxiliary: from a `first_loop = False` state, fuel one more
than the (clamped) remaining distance to the horizon suffices for the run
to exit the guard rather than exhaust its fuel. -/
theorem availLoop_terminates_aux (g : Int) (avail : List (List TimeRange))
    (events : List Event) (endT : Int) (hg : 0 < g) :
    ∀ (k : Nat) (s t : Int) (acc : List Int), endT - t ≤ (k : Int) →
      ∃ res, availLoop g avail events endT (k + 1) s t false acc = some res
    := by
  intro k
  induction k with
  | zero =>
    intro s t acc hk
    by_cases h : t ≤ endT
    · rw [availLoop_step_next g avail events endT 0 s t acc h]
      exact ⟨_, availLoop_exit g avail events endT 0 (s + g) (t + g) false _
        (by omega)⟩
    · exact ⟨acc, availLoop_exit g avail events endT 1 s t false acc h⟩
  | succ k ih =>
    intro s t acc hk
    by_cases h : t ≤ endT
    · rw [availLoop_step_next g avail events endT (k + 1) s t acc h]
      exact ih (s + g) (t + g) _ (by omega)
    · exact ⟨acc, availLoop_exit g avail events endT (k + 1 + 1) s t false
        acc h⟩

/-- Claim C9: for every horizon and every strictly positive granularity the
enumeration loop terminates — some finite fuel makes the run exit through
the loop guard (return `some`), since the cursor advances by the fixed
positive granularity each iteration and the guard is bounded by the finite
horizon end. -/
theorem enumeration_terminates (g : Int) (avail : List (List TimeRange))
    (events : List Event) (startT endT : Int) (hg : 0 < g) :
    ∃ (fuel : Nat) (res : List Int),
      enumerate_slots g avail events startT endT fuel = some res := by
  by_cases h : startT + g ≤ endT
  · refine ⟨(endT - (startT + g)).toNat + 1 + 1, ?_⟩
    unfold enumerate_slots
    rw [availLoop_step_first g avail events endT
      ((endT - (startT + g)).toNat + 1) startT (startT + g) [] h]
    exact availLoop_terminates_aux g avail events endT hg
      (endT - (startT + g)).toNat startT (startT + g) _ (by omega)
  · exact ⟨1, [], availLoop_exit g avail events endT 1 startT (startT + g)
      true [] h⟩

/-- Witness for C9 at a concrete input: the 15-minute granularity is
positive, so some fuel completes the run on an empty template and horizon
`[0, 0]`. -/
theorem enumeration_terminates_witness :
    ∃ (fuel : Nat) (res : List Int),
      enumerate_slots 900000000 [] [] 0 0 fuel = some res :=
  enumeration_terminates 900000000 [] [] 0 0 (by decide)

end Meetings
